import Mathlib

/-!
Verification model of `src/Resizer/main.cpp` (the "resizer" application).

Real-valued quantities held in C `double`s (seconds, megabytes, time-base
values) are modelled over `ℚ`; 64-bit machine integers are modelled as `ℤ`
(no quantity in the claims approaches the `int64_t` range).  Casting a
`double` to an integer type truncates toward zero, which `truncQ` mirrors.
C integer division by zero is undefined behaviour; computations that can
divide by zero are therefore partial (`Option`), and the transcode pipeline
has an explicit `undef` outcome for that path.
-/

namespace Resizer

/-- Models the C cast `(int64_t)x` of a floating value: truncation toward
zero. -/
def truncQ (x : ℚ) : ℤ := if 0 ≤ x then ⌊x⌋ else ⌈x⌉

/-- Models C `llround`: rounding to the nearest integer, halfway cases away
from zero. -/
def llroundQ (x : ℚ) : ℤ := if 0 ≤ x then ⌊x + 1 / 2⌋ else -⌊-x + 1 / 2⌋

/-- An `AVRational`: the time-base type of the media library, a pair of
integers. -/
structure AVRat where
  num : ℤ
  den : ℤ
deriving DecidableEq

/-- The rational value of an `AVRational` (models `av_q2d` without the
float detour). -/
def AVRat.toQ (r : AVRat) : ℚ := (r.num : ℚ) / (r.den : ℚ)

/-- Models `av_inv_q`. -/
def avInvQ (r : AVRat) : AVRat := ⟨r.den, r.num⟩

/-- Models `av_rescale_rnd(a, b, c, AV_ROUND_NEAR_INF)`: `a * b / c` rounded
to nearest, halfway away from zero (the rounding used by `av_rescale_q`). -/
def avRescaleRnd (a b c : ℤ) : ℤ :=
  if 0 ≤ a then (a * b + c.tdiv 2).tdiv c
  else -(((-a) * b + c.tdiv 2).tdiv c)

/-- Models `av_rescale_q(a, bq, cq)`. -/
def avRescaleQ (a : ℤ) (bq cq : AVRat) : ℤ :=
  avRescaleRnd a (bq.num * cq.den) (cq.num * bq.den)

/-!
## Time model: target bitrate (`TranscodeWithSizeAndScale`, main.cpp:1145-1150)

```cpp
int64_t total_bits = (int64_t)(target_size_mb * 8.0 * 1024.0 * 1024.0);
int64_t video_bits = (int64_t)(total_bits * 0.95);
target_bitrate = video_bits / (int64_t)segment_duration;
```

The division is C `int64_t` division: truncating, undefined when the
(truncated) duration is zero — hence the `Option`.
-/

/-- The target-bitrate computation of `TranscodeWithSizeAndScale`
(main.cpp:1145-1150).  `none` models the undefined division by zero that
occurs when `(int64_t)segment_duration = 0`. -/
def computeTargetBitrate (sizeMB duration : ℚ) : Option ℤ :=
  let totalBits : ℤ := truncQ (sizeMB * 8 * 1024 * 1024)
  let videoBits : ℤ := truncQ ((totalBits : ℚ) * (95 / 100))
  let dur64 : ℤ := truncQ duration
  if dur64 = 0 then none else some (videoBits.tdiv dur64)

/-- Modelled from the spec's words (section 8): `EncodeBudget.bitrate =
floor((sizeMB × 8 × 1024² × 0.95) / (end − start))`.  Used only to compare
the source computation against the specification formula. -/
def specBitrate (sizeMB startS endS : ℚ) : ℤ :=
  ⌊sizeMB * 8 * 1024 * 1024 * (95 / 100) / (endS - startS)⌋

/-!
## Transcode pipeline (`TranscodeWithSizeAndScale`, main.cpp:1118-1323)
-/

/-- The caller-supplied parameters of a transcode run (scale divisor and
paths do not affect any claim's property and the dimensions are carried
separately in the source; only the budget-relevant fields are needed). -/
structure SegmentRequest where
  sizeMB : ℚ
  startS : ℚ
  endS : ℚ
deriving DecidableEq

/-- Which H.264 encoder implementation the pipeline selected. -/
inductive EncoderKind
  | nvenc
  | x264
deriving DecidableEq

/-- Encoder selection (main.cpp:1173-1174): `avcodec_find_encoder_by_name
("h264_nvenc")` first, then `avcodec_find_encoder(AV_CODEC_ID_H264)`. -/
def selectEncoder (hwAvail swAvail : Bool) : Option EncoderKind :=
  if hwAvail then some .nvenc
  else if swAvail then some .x264
  else none

/-- Environment of one transcode run: which external library calls succeed,
the source stream's parameters, and the video frames the decoder yields
after the backward-biased seek (resolved `best_effort_timestamp` values, in
decode order). -/
structure TranscodeEnv where
  openInputOk : Bool
  findStreamInfoOk : Bool
  hasVideo : Bool
  decoderOk : Bool
  outCtxOk : Bool
  hwAvail : Bool
  swAvail : Bool
  newStreamOk : Bool
  encOpenOk : Bool
  encParamsOk : Bool
  avioOpenOk : Bool
  headerOk : Bool
  videoTB : AVRat
  framerate : AVRat
  frames : List ℤ
deriving DecidableEq

/-- The terminal failure kinds of `TranscodeWithSizeAndScale` (each is an
early `return false` / `goto cleanup` in the source). -/
inductive TranscodeError
  | InvalidRange
  | InvalidBudget
  | OpenFailed
  | StreamInfoFailed
  | NoVideoStream
  | DecoderFailed
  | OutCtxFailed
  | NoEncoder
  | StreamAllocFailed
  | EncodeOpenFailed
  | EncParamsFailed
  | MuxOpenFailed
  | WriteHeaderFailed
deriving DecidableEq

/-- Observable resource/side-effect events of a transcode run, in program
order.  A rejection "before any I/O" is a run whose event list is empty. -/
inductive Action
  | openInput
  | openDecoder
  | openEncoder
  | openOutput
  | flushEncoder
deriving DecidableEq

/-- One video frame written to the output: its source presentation
timestamp and the timestamp handed to the encoder. -/
structure FrameOut where
  srcPts : ℤ
  outPts : ℤ
deriving DecidableEq

/-- Models `in_time = in_pts * av_q2d(video_in_stream->time_base)`
(main.cpp:1247). -/
def frameTimeQ (tb : AVRat) (p : ℤ) : ℚ := (p : ℚ) * tb.toQ

/-- Timestamp rebasing of an encoded frame (main.cpp:1255-1257): subtract
the start offset in the stream time base, clamp negatives to zero, rescale
into the encoder time base. -/
def rebasePts (tb encTB : AVRat) (startPts p : ℤ) : ℤ :=
  let rel0 : ℤ := p - startPts
  let rel : ℤ := if rel0 < 0 then 0 else rel0
  avRescaleQ rel tb encTB

/-- Computation of `video_start_pts` (main.cpp:1211-1212): `start_seconds` scaled by
`AV_TIME_BASE = 1000000` with `llround`, then rescaled into the video
stream's time base. -/
def videoStartPts (startS : ℚ) (tb : AVRat) : ℤ :=
  avRescaleQ (llroundQ (startS * 1000000)) ⟨1, 1000000⟩ tb

/-- The demux/decode/encode loop over the decoded video frames
(main.cpp:1242-1268): stop on the first frame past `end`, drop frames
before `start`, otherwise rebase and encode. -/
def transcodeLoop (startS endS : ℚ) (tb encTB : AVRat) (startPts : ℤ) :
    List ℤ → List FrameOut
  | [] => []
  | p :: rest =>
    let t : ℚ := frameTimeQ tb p
    if endS < t then []
    else if t < startS then transcodeLoop startS endS tb encTB startPts rest
    else ⟨p, rebasePts tb encTB startPts p⟩ ::
      transcodeLoop startS endS tb encTB startPts rest

/-- Outcome of a transcode run.  `undef` is the undefined behaviour of the
integer division by zero in the budget computation (reachable, per the
guards, only when `0 < end − start < 1`). -/
inductive TranscodeResult
  | ok (enc : EncoderKind) (bitrate : ℤ) (written : List FrameOut)
  | err (e : TranscodeError)
  | undef
deriving DecidableEq

/-- The resource-opening part of `TranscodeWithSizeAndScale`
(main.cpp:1152-1307): everything from `avformat_open_input` on, reached
only after the guards passed with the already-computed `bitrate`.  Error
kinds and the point at which each resource is opened follow the source. -/
def transcodePipeline (env : TranscodeEnv) (req : SegmentRequest)
    (bitrate : ℤ) : TranscodeResult × List Action :=
  if !env.openInputOk then (.err .OpenFailed, [.openInput])
  else if !env.findStreamInfoOk then (.err .StreamInfoFailed, [.openInput])
  else if !env.hasVideo then (.err .NoVideoStream, [.openInput])
  else if !env.decoderOk then (.err .DecoderFailed, [.openInput])
  else if !env.outCtxOk then (.err .OutCtxFailed, [.openInput, .openDecoder])
  else
    match selectEncoder env.hwAvail env.swAvail with
    | none => (.err .NoEncoder, [.openInput, .openDecoder])
    | some enc =>
      if !env.newStreamOk then
        (.err .StreamAllocFailed, [.openInput, .openDecoder])
      else if !env.encOpenOk then
        (.err .EncodeOpenFailed, [.openInput, .openDecoder])
      else if !env.encParamsOk then
        (.err .EncParamsFailed, [.openInput, .openDecoder, .openEncoder])
      else if !env.avioOpenOk then
        (.err .MuxOpenFailed, [.openInput, .openDecoder, .openEncoder])
      else if !env.headerOk then
        (.err .WriteHeaderFailed,
          [.openInput, .openDecoder, .openEncoder, .openOutput])
      else
        (.ok enc bitrate
          (transcodeLoop req.startS req.endS env.videoTB
            (avInvQ env.framerate) (videoStartPts req.startS env.videoTB)
            env.frames),
          [.openInput, .openDecoder, .openEncoder, .openOutput,
            .flushEncoder])

/-- Models `TranscodeWithSizeAndScale` (main.cpp:1118-1323) as a function from the
request and the environment to its outcome and the ordered list of
resource/side-effect events it performed.  The guards (main.cpp:1142-1150)
run before `transcodePipeline` opens anything. -/
def transcodeSegment (env : TranscodeEnv) (req : SegmentRequest) :
    TranscodeResult × List Action :=
  if req.endS ≤ req.startS then (.err .InvalidRange, [])
  else if req.endS - req.startS ≤ 0 then (.err .InvalidRange, [])
  else
    match computeTargetBitrate req.sizeMB (req.endS - req.startS) with
    | none => (.undef, [])
    | some bitrate =>
      if bitrate ≤ 0 then (.err .InvalidBudget, [])
      else transcodePipeline env req bitrate

/-!
## Playback/seek engine (`PlaybackThreadProc` and its callers,
main.cpp:753-1115)
-/

/-- Models `int frameMs = (int)max(1.0, 1000.0 / g_videoFPS);` (main.cpp:1068 and
1077): the per-frame step interval in milliseconds. -/
def frameIntervalMs (fps : ℚ) : ℤ := truncQ (max 1 (1000 / fps))

/-- The shared player state: the globals mutated by the UI thread and the
decode thread (`g_playThreadShouldExit`, `g_isPlaying`, `g_seekRequested`,
`g_seekTargetMs`, `g_decodeSingleFrame`, `g_stepDir`, `g_currentPosMs`, and
the published-frame slot `g_hFrameBitmap`, represented by the timestamp of
the frame it holds). -/
structure PlayerState where
  shouldExit : Bool
  isPlaying : Bool
  seekRequested : Bool
  seekTargetMs : ℤ
  decodeSingleFrame : Bool
  stepDir : ℤ
  currentPosMs : ℤ
  publishedMs : Option ℤ
deriving DecidableEq

/-- Models `SeekMs` (main.cpp:1054-1062): clamp the target into `[0, durMs]`,
record it, raise the seek flag, and optionally request a single-frame
decode. -/
def seekMs (durMs ms0 : ℤ) (decodeSingle : Bool) (st : PlayerState) :
    PlayerState :=
  let ms1 : ℤ := if ms0 < 0 then 0 else ms0
  let ms2 : ℤ := if ms1 > durMs then durMs else ms1
  { st with
    seekTargetMs := ms2
    seekRequested := true
    decodeSingleFrame := st.decodeSingleFrame || decodeSingle }

/-- Models `StepForward` (main.cpp:1065-1071): pause, set the step direction to
`+1`, and request a single-frame seek to the current position plus one
frame interval. -/
def stepForwardState (durMs : ℤ) (fps : ℚ) (st : PlayerState) :
    PlayerState :=
  let frameMs : ℤ := frameIntervalMs fps
  seekMs durMs (st.currentPosMs + frameMs) true
    { st with isPlaying := false, stepDir := 1 }

/-- Models `StepBackward` (main.cpp:1074-1082): pause, set the step direction to
`-1`, and request a single-frame seek to two frame intervals before the
current position (floored at zero). -/
def stepBackwardState (durMs : ℤ) (fps : ℚ) (st : PlayerState) :
    PlayerState :=
  let frameMs : ℤ := frameIntervalMs fps
  let target : ℤ :=
    if st.currentPosMs > frameMs * 2 then st.currentPosMs - frameMs * 2
    else 0
  seekMs durMs target true { st with isPlaying := false, stepDir := -1 }

/-- The seek poll at the head of each decode-loop iteration
(main.cpp:830-834): consume the pending request, if any, and perform the
corresponding `av_seek_frame`.  The returned list holds the targets of the
seeks actually performed during the poll. -/
def pollSeek (st : PlayerState) : PlayerState × List ℤ :=
  if st.seekRequested then
    ({ st with seekRequested := false }, [st.seekTargetMs])
  else (st, [])

/-- The forward-step scan of the single-frame branch (main.cpp:876-887):
publish the first decoded frame whose timestamp is at or after the target.
The result pairs the published frame's timestamp with the new
`g_currentPosMs`. -/
def fwdScan (target : ℤ) : List ℤ → Option (ℤ × ℤ)
  | [] => none
  | m :: rest =>
    if target ≤ m then some (m, m)
    else fwdScan target rest

/-- The backward-step scan of the single-frame branch (main.cpp:889-919):
remember the last frame strictly before the target; on the first frame at
or past the target publish the remembered frame if one exists, else the
boundary frame itself.  `best` carries the remembered frame's timestamp
(`bestBmp`/`bestMs` in the source). -/
def backScanAux (target : ℤ) (best : Option ℤ) : List ℤ → Option (ℤ × ℤ)
  | [] => none
  | m :: rest =>
    if m < target then backScanAux target (some m) rest
    else
      match best with
      | some b => some (b, if 0 ≤ b then b else m)
      | none => some (m, m)

/-- The single-frame decode of one loop iteration (main.cpp:837-936),
dispatching on `g_stepDir` (`>= 0`: forward logic, `< 0`: backward
logic). -/
def singleFrameScan (stepDir target : ℤ) (frames : List ℤ) :
    Option (ℤ × ℤ) :=
  if 0 ≤ stepDir then fwdScan target frames
  else backScanAux target none frames

/-- What `av_read_frame` plus the decode calls yield to one iteration of
the continuous-playback branch: end of stream, a non-video (or
undecodable) packet, or a video packet decoding to a list of frame
timestamps. -/
inductive ReadResult
  | eos
  | skip
  | frames (l : List ℤ)
deriving DecidableEq

/-- Environment of one decode-loop iteration: the decode stream available
to a single-frame scan (the frames the demuxer yields after the seek just
performed), and the next read result for the continuous-playback path. -/
structure IterEnv where
  singleFrames : List ℤ
  readNext : ReadResult
deriving DecidableEq

/-- Whether the iteration left the `while (!g_playThreadShouldExit)` loop
or went around again. -/
inductive IterOutcome
  | exited
  | continued
deriving DecidableEq

/-- One iteration of the decode loop of `PlaybackThreadProc`
(main.cpp:829-990): exit check, seek poll, paused single-frame branch,
idle branch, then the continuous-playback read/decode/publish branch. -/
def playbackIter (env : IterEnv) (st0 : PlayerState) :
    PlayerState × IterOutcome :=
  if st0.shouldExit then (st0, .exited)
  else
    let st := (pollSeek st0).1
    if st.decodeSingleFrame && !st.isPlaying then
      let pub := singleFrameScan st.stepDir st.seekTargetMs env.singleFrames
      let st1 :=
        match pub with
        | some (ms, pos) =>
          { st with publishedMs := some ms, currentPosMs := pos }
        | none => st
      ({ st1 with decodeSingleFrame := false, stepDir := 0 }, .continued)
    else if !st.isPlaying then (st, .continued)
    else
      match env.readNext with
      | .eos => ({ st with isPlaying := false }, .continued)
      | .skip => (st, .continued)
      | .frames l =>
        match l.getLast? with
        | some ms =>
          ({ st with publishedMs := some ms, currentPosMs := ms }, .continued)
        | none => (st, .continued)

/-- Modelled from the spec's words (claim C2): "the latest decoded frame
whose timestamp is strictly before P".  Used only to compare the engine's
behaviour against the specification. -/
def specLatestFrameBefore (frames : List ℤ) (p : ℤ) : Option ℤ :=
  (frames.filter (fun m => decide (m < p))).getLast?

/-- Models `SetMarkInFromCurrent` / `SetMarkOutFromCurrent` (main.cpp:1099-1101,
1112-1114): the current position in milliseconds rendered as seconds with
three decimals (exact, since `ms / 1000` has at most three decimals). -/
def markSecondsFromPosMs (ms : ℤ) : ℚ := (ms : ℚ) / 1000

/-!
## Helper lemmas
-/

theorem truncQ_of_nonneg {x : ℚ} (h : 0 ≤ x) : truncQ x = ⌊x⌋ := if_pos h

theorem truncQ_intCast (n : ℤ) : truncQ (n : ℚ) = n := by
  unfold truncQ
  split
  · exact Int.floor_intCast n
  · exact Int.ceil_intCast n

theorem truncQ_eq {x : ℚ} {n : ℤ} (h0 : 0 ≤ x) (h : ⌊x⌋ = n) : truncQ x = n := by
  rw [truncQ_of_nonneg h0, h]

theorem floor_div_natCast (X : ℚ) (k : ℕ) (hk : 0 < k) :
    ⌊X / (k : ℚ)⌋ = ⌊X⌋ / (k : ℤ) := by
  have hk0 : (0 : ℤ) < (k : ℤ) := by exact_mod_cast hk
  have hkQ : (0 : ℚ) < (k : ℚ) := by exact_mod_cast hk
  rw [Int.floor_eq_iff]
  constructor
  · rw [le_div_iff₀ hkQ]
    have h1 : (⌊X⌋ / (k : ℤ)) * (k : ℤ) ≤ ⌊X⌋ := Int.ediv_mul_le _ (ne_of_gt hk0)
    calc ((⌊X⌋ / (k : ℤ) : ℤ) : ℚ) * (k : ℚ)
        = (((⌊X⌋ / (k : ℤ)) * (k : ℤ) : ℤ) : ℚ) := by push_cast; ring
      _ ≤ ((⌊X⌋ : ℤ) : ℚ) := by exact_mod_cast h1
      _ ≤ X := Int.floor_le X
  · rw [div_lt_iff₀ hkQ]
    have h1 : ⌊X⌋ < (⌊X⌋ / (k : ℤ) + 1) * (k : ℤ) :=
      Int.lt_ediv_add_one_mul_self _ hk0
    have h2 : ⌊X⌋ + 1 ≤ (⌊X⌋ / (k : ℤ) + 1) * (k : ℤ) := h1
    calc X < ((⌊X⌋ : ℤ) : ℚ) + 1 := Int.lt_floor_add_one X
      _ = ((⌊X⌋ + 1 : ℤ) : ℚ) := by push_cast; ring
      _ ≤ (((⌊X⌋ / (k : ℤ) + 1) * (k : ℤ) : ℤ) : ℚ) := by exact_mod_cast h2
      _ = (((⌊X⌋ / (k : ℤ) : ℤ) : ℚ) + 1) * (k : ℚ) := by push_cast; ring

theorem transcodePipeline_ok_bitrate (env : TranscodeEnv)
    (req : SegmentRequest) (c : ℤ) (enc : EncoderKind) (b : ℤ)
    (w : List FrameOut) (acts : List Action)
    (h : transcodePipeline env req c = (.ok enc b w, acts)) : b = c := by
  unfold transcodePipeline at h
  split at h
  · exact TranscodeResult.noConfusion (congrArg Prod.fst h)
  split at h
  · exact TranscodeResult.noConfusion (congrArg Prod.fst h)
  split at h
  · exact TranscodeResult.noConfusion (congrArg Prod.fst h)
  split at h
  · exact TranscodeResult.noConfusion (congrArg Prod.fst h)
  split at h
  · exact TranscodeResult.noConfusion (congrArg Prod.fst h)
  split at h
  · exact TranscodeResult.noConfusion (congrArg Prod.fst h)
  split at h
  · exact TranscodeResult.noConfusion (congrArg Prod.fst h)
  split at h
  · exact TranscodeResult.noConfusion (congrArg Prod.fst h)
  split at h
  · exact TranscodeResult.noConfusion (congrArg Prod.fst h)
  split at h
  · exact TranscodeResult.noConfusion (congrArg Prod.fst h)
  split at h
  · exact TranscodeResult.noConfusion (congrArg Prod.fst h)
  simp only [Prod.mk.injEq, TranscodeResult.ok.injEq] at h
  exact h.1.2.1.symm

theorem computeTargetBitrate_def (s d : ℚ) :
    computeTargetBitrate s d =
      if truncQ d = 0 then none
      else some ((truncQ ((truncQ (s * 8 * 1024 * 1024) : ℚ) *
        (95 / 100))).tdiv (truncQ d)) := rfl

theorem computeTargetBitrate_int (m k : ℕ) (hk : 0 < k) :
    computeTargetBitrate (m : ℚ) (k : ℚ) =
      some ⌊(m : ℚ) * 8 * 1024 * 1024 * (95 / 100) / (k : ℚ)⌋ := by
  have hk0 : (0 : ℤ) < (k : ℤ) := by exact_mod_cast hk
  have h1 : truncQ ((m : ℚ) * 8 * 1024 * 1024) = (8388608 * (m : ℤ) : ℤ) := by
    have he : ((m : ℚ) * 8 * 1024 * 1024) = ((8388608 * (m : ℤ) : ℤ) : ℚ) := by
      push_cast; ring
    rw [he, truncQ_intCast]
  have h2 : truncQ (((8388608 * (m : ℤ) : ℤ) : ℚ) * (95 / 100)) =
      ⌊(m : ℚ) * 8 * 1024 * 1024 * (95 / 100)⌋ := by
    have he : (((8388608 * (m : ℤ) : ℤ) : ℚ) * (95 / 100)) =
        (m : ℚ) * 8 * 1024 * 1024 * (95 / 100) := by push_cast; ring
    rw [he, truncQ_of_nonneg (by positivity)]
  have h3 : truncQ ((k : ℚ)) = (k : ℤ) := by
    have he : ((k : ℚ)) = (((k : ℤ) : ℤ) : ℚ) := by push_cast; ring
    rw [he, truncQ_intCast]
  simp only [computeTargetBitrate, h1, h2, h3]
  rw [if_neg (ne_of_gt hk0)]
  congr 1
  have hY : (0 : ℚ) ≤ (m : ℚ) * 8 * 1024 * 1024 * (95 / 100) := by positivity
  rw [Int.tdiv_eq_ediv (Int.floor_nonneg.mpr hY) (le_of_lt hk0),
    ← floor_div_natCast _ k hk]

theorem computeTargetBitrate_5_10 : computeTargetBitrate 5 (20 - 10) = some 3984588 := by
  have h := computeTargetBitrate_int 5 10 (by norm_num)
  norm_num at h
  rw [show (20 - 10 : ℚ) = 10 by norm_num]
  exact h

/-!
## Claims on the bitrate computation and the pre-I/O guards
-/

/-- C1 (counterexample): for the valid request `sizeMB = 1`, `start = 0`,
`end = 5/2`, the code's computed bitrate is `3984588`, while the claimed
formula `floor(sizeMB × 8 × 1024² × 0.95 / (end − start))` yields
`3187671`: the claim's equality fails because the code divides by the
duration truncated to an integer. -/
theorem bitrate_formula_counterexample :
    (0 : ℚ) < 1 ∧ (0 : ℚ) < 5 / 2 - 0 ∧
    computeTargetBitrate 1 (5 / 2 - 0) = some 3984588 ∧
    specBitrate 1 0 (5 / 2) = 3187671 ∧ (3984588 : ℤ) ≠ 3187671 := by
  refine ⟨by norm_num, by norm_num, ?_, ?_, by decide⟩
  · have h1 : truncQ ((1 : ℚ) * 8 * 1024 * 1024) = 8388608 :=
      truncQ_eq (by norm_num) (by norm_num)
    have h2 : truncQ (((8388608 : ℤ) : ℚ) * (95 / 100)) = 7969177 :=
      truncQ_eq (by norm_num) (by norm_num)
    have h3 : truncQ ((5 : ℚ) / 2 - 0) = 2 :=
      truncQ_eq (by norm_num) (by norm_num)
    rw [computeTargetBitrate_def, h1, h2, h3, if_neg (by decide)]
    decide
  · norm_num [specBitrate]

/-- C1 (amended): the computed bitrate is `videoBits.tdiv ⌊end − start⌋`
with `videoBits = trunc(trunc(sizeMB × 8 × 1024²) × 0.95)`; this agrees
with the claimed floor formula whenever `sizeMB` and `end − start` are
(numerals of) natural numbers with `end − start ≥ 1`.  Requests with
`end ≤ start`, and requests whose computed bitrate is ≤ 0 (when the
truncated duration is non-zero, so the division happens), are rejected
before any input or output resource is opened (empty event list); every
run that reaches the `ok` outcome has a strictly positive bitrate. -/
theorem transcode_guards_and_bitrate (env : TranscodeEnv)
    (req : SegmentRequest) :
    (req.endS ≤ req.startS →
      transcodeSegment env req = (.err .InvalidRange, [])) ∧
    (∀ b : ℤ, req.startS < req.endS →
      computeTargetBitrate req.sizeMB (req.endS - req.startS) = some b →
      b ≤ 0 → transcodeSegment env req = (.err .InvalidBudget, [])) ∧
    (∀ m k : ℕ, 0 < k → req.sizeMB = (m : ℚ) →
      req.endS - req.startS = (k : ℚ) →
      computeTargetBitrate req.sizeMB (req.endS - req.startS) =
        some (specBitrate req.sizeMB req.startS req.endS)) ∧
    (∀ enc b w acts, transcodeSegment env req = (.ok enc b w, acts) →
      0 < b) := by
  refine ⟨?_, ?_, ?_, ?_⟩
  · intro h
    unfold transcodeSegment
    rw [if_pos h]
  · intro b hse hb hb0
    have h1 : ¬(req.endS ≤ req.startS) := not_le.mpr hse
    have h2 : ¬(req.endS - req.startS ≤ 0) := not_le.mpr (sub_pos.mpr hse)
    unfold transcodeSegment
    rw [if_neg h1, if_neg h2, hb]
    simp only [if_pos hb0]
  · intro m k hk hm hkk
    rw [hm, hkk, computeTargetBitrate_int m k hk]
    unfold specBitrate
    rw [hkk]
  · intro enc b w acts h
    unfold transcodeSegment at h
    split at h
    · exact TranscodeResult.noConfusion (congrArg Prod.fst h)
    split at h
    · exact TranscodeResult.noConfusion (congrArg Prod.fst h)
    split at h
    · exact TranscodeResult.noConfusion (congrArg Prod.fst h)
    rename_i bitrate hbit
    split at h
    · exact TranscodeResult.noConfusion (congrArg Prod.fst h)
    rename_i hble
    have hb2 : b = bitrate := transcodePipeline_ok_bitrate _ _ _ _ _ _ _ h
    omega

/-- C1 (witness): the amended formula agreement at the concrete request
`sizeMB = 5`, `start = 10`, `end = 20`. -/
theorem transcode_guards_and_bitrate_witness :
    computeTargetBitrate (5 : ℚ) ((20 : ℚ) - 10) =
      some (specBitrate 5 10 20) := by
  exact (transcode_guards_and_bitrate
    ⟨true, true, true, true, true, true, true, true, true, true, true, true,
      ⟨1, 1000⟩, ⟨25, 1⟩, []⟩ ⟨5, 10, 20⟩).2.2.1 5 10 (by norm_num)
    (by norm_num) (by norm_num)

/-- C3 (counterexample): for `start = 10`, `end = 20`, `sizeMB = 5` the
code computes a bitrate of `3984588`, which is not within ±1 of the
claimed `4239756`. -/
theorem bitrate_scenario_counterexample :
    computeTargetBitrate 5 (20 - 10) = some 3984588 ∧
    ¬((4239756 - 1 : ℤ) ≤ 3984588 ∧ (3984588 : ℤ) ≤ 4239756 + 1) :=
  ⟨computeTargetBitrate_5_10, by decide⟩

/-- C3 (amended): for `start = 10`, `end = 20`, `sizeMB = 5` the computed
bitrate is `3984588` bits/sec, which also equals the spec's own floor
formula (the figure `4239756` in the claim is miscalculated). -/
theorem bitrate_scenario_value :
    computeTargetBitrate 5 (20 - 10) = some 3984588 ∧
    specBitrate 5 10 20 = 3984588 :=
  ⟨computeTargetBitrate_5_10, by norm_num [specBitrate]⟩

/-- C6: the pipeline prefers the hardware encoder (`h264_nvenc`); when that
lookup fails it falls back to the software H.264 encoder and a run whose
remaining environment is healthy still succeeds; only when neither encoder
exists does the run fail with `NoEncoder`. -/
theorem encoder_fallback (env : TranscodeEnv) (req : SegmentRequest) (b : ℤ)
    (h1 : env.openInputOk = true) (h2 : env.findStreamInfoOk = true)
    (h3 : env.hasVideo = true) (h4 : env.decoderOk = true)
    (h5 : env.outCtxOk = true) (h6 : env.newStreamOk = true)
    (h7 : env.encOpenOk = true) (h8 : env.encParamsOk = true)
    (h9 : env.avioOpenOk = true) (h10 : env.headerOk = true)
    (hrange : req.startS < req.endS)
    (hb : computeTargetBitrate req.sizeMB (req.endS - req.startS) = some b)
    (hbpos : 0 < b) :
    (env.hwAvail = true →
      transcodeSegment env req =
        (.ok .nvenc b (transcodeLoop req.startS req.endS env.videoTB
            (avInvQ env.framerate) (videoStartPts req.startS env.videoTB)
            env.frames),
          [.openInput, .openDecoder, .openEncoder, .openOutput,
            .flushEncoder])) ∧
    (env.hwAvail = false → env.swAvail = true →
      transcodeSegment env req =
        (.ok .x264 b (transcodeLoop req.startS req.endS env.videoTB
            (avInvQ env.framerate) (videoStartPts req.startS env.videoTB)
            env.frames),
          [.openInput, .openDecoder, .openEncoder, .openOutput,
            .flushEncoder])) ∧
    (env.hwAvail = false → env.swAvail = false →
      transcodeSegment env req =
        (.err .NoEncoder, [.openInput, .openDecoder])) := by
  have hred : transcodeSegment env req = transcodePipeline env req b := by
    unfold transcodeSegment
    rw [if_neg (not_le.mpr hrange), if_neg (not_le.mpr (sub_pos.mpr hrange)),
      hb]
    show (if b ≤ 0 then ((.err .InvalidBudget, []) :
        TranscodeResult × List Action)
      else transcodePipeline env req b) = transcodePipeline env req b
    rw [if_neg (not_le.mpr hbpos)]
  refine ⟨?_, ?_, ?_⟩
  · intro hhw
    rw [hred]
    simp [transcodePipeline, selectEncoder, h1, h2, h3, h4, h5, h6, h7, h8,
      h9, h10, hhw]
  · intro hhw hsw
    rw [hred]
    simp [transcodePipeline, selectEncoder, h1, h2, h3, h4, h5, h6, h7, h8,
      h9, h10, hhw, hsw]
  · intro hhw hsw
    rw [hred]
    simp [transcodePipeline, selectEncoder, h1, h2, h3, h4, h5, hhw, hsw]

/-- C6 (witness): with the hardware encoder unavailable but the software
one present and a healthy environment, a concrete run succeeds with the
software encoder. -/
theorem encoder_fallback_witness :
    transcodeSegment
      ⟨true, true, true, true, true, false, true, true, true, true, true,
        true, ⟨1, 1000⟩, ⟨25, 1⟩, []⟩ ⟨5, 10, 20⟩ =
      (.ok .x264 3984588 [],
        [.openInput, .openDecoder, .openEncoder, .openOutput,
          .flushEncoder]) := by
  have h := (encoder_fallback
    ⟨true, true, true, true, true, false, true, true, true, true, true,
      true, ⟨1, 1000⟩, ⟨25, 1⟩, []⟩ ⟨5, 10, 20⟩ 3984588 rfl rfl rfl rfl rfl
    rfl rfl rfl rfl rfl (by norm_num) computeTargetBitrate_5_10
    (by norm_num)).2.1 rfl rfl
  simpa [transcodeLoop] using h

/-- C10: for every request with `0 < end − start < 1`, the cast of the
segment duration to `int64_t` yields `0`, the bitrate computation divides
by that zero (it is not total: `none`/`undef`, C undefined behaviour), and
this happens after the range guard but before the non-positive-bitrate
guard can reject the request. -/
theorem subsecond_range_division_by_zero (env : TranscodeEnv)
    (req : SegmentRequest) (h1 : req.startS < req.endS)
    (h2 : req.endS - req.startS < 1) :
    truncQ (req.endS - req.startS) = 0 ∧
    computeTargetBitrate req.sizeMB (req.endS - req.startS) = none ∧
    transcodeSegment env req = (.undef, []) := by
  have hpos : (0 : ℚ) < req.endS - req.startS := sub_pos.mpr h1
  have hd : truncQ (req.endS - req.startS) = 0 := by
    rw [truncQ_of_nonneg (le_of_lt hpos), Int.floor_eq_zero_iff]
    exact ⟨le_of_lt hpos, h2⟩
  have hc : computeTargetBitrate req.sizeMB (req.endS - req.startS) = none := by
    rw [computeTargetBitrate_def, hd, if_pos rfl]
  refine ⟨hd, hc, ?_⟩
  unfold transcodeSegment
  rw [if_neg (not_le.mpr h1), if_neg (not_le.mpr hpos), hc]

/-- C10 (witness): a sub-second range produced by the fractional Mark
In/Mark Out times (positions 500 ms and 1300 ms) reaches the division by
zero. -/
theorem subsecond_range_division_by_zero_witness :
    transcodeSegment
      ⟨true, true, true, true, true, true, true, true, true, true, true,
        true, ⟨1, 1000⟩, ⟨25, 1⟩, []⟩
      ⟨5, markSecondsFromPosMs 500, markSecondsFromPosMs 1300⟩ =
      (.undef, []) := by
  exact (subsecond_range_division_by_zero _ _
    (by norm_num [markSecondsFromPosMs])
    (by norm_num [markSecondsFromPosMs])).2.2

/-!
## Claims on the demux/decode/encode loop
-/

theorem transcodeLoop_srcPts (startS endS : ℚ) (tb encTB : AVRat)
    (startPts : ℤ) (frames : List ℤ) :
    (transcodeLoop startS endS tb encTB startPts frames).map FrameOut.srcPts =
      (frames.takeWhile fun p => decide (frameTimeQ tb p ≤ endS)).filter
        fun p => decide (startS ≤ frameTimeQ tb p) := by
  induction frames with
  | nil => rfl
  | cons p rest ih =>
    by_cases h1 : endS < frameTimeQ tb p
    · have h1b : ¬(frameTimeQ tb p ≤ endS) := not_le.mpr h1
      simp [transcodeLoop, h1, List.takeWhile_cons, h1b]
    · have h1b : frameTimeQ tb p ≤ endS := not_lt.mp h1
      by_cases h2 : frameTimeQ tb p < startS
      · have h2b : ¬(startS ≤ frameTimeQ tb p) := not_le.mpr h2
        simp [transcodeLoop, h1, h2, List.takeWhile_cons, List.filter_cons,
          h1b, h2b, ih]
      · have h2b : startS ≤ frameTimeQ tb p := not_lt.mp h2
        simp [transcodeLoop, h1, h2, List.takeWhile_cons, List.filter_cons,
          h1b, h2b, ih]

theorem mem_takeWhile_of_sorted {tb : AVRat} {endS : ℚ} {frames : List ℤ}
    (hs : frames.Pairwise (fun a b => frameTimeQ tb a ≤ frameTimeQ tb b))
    {p : ℤ} (hp : p ∈ frames) (hpe : frameTimeQ tb p ≤ endS) :
    p ∈ frames.takeWhile fun q => decide (frameTimeQ tb q ≤ endS) := by
  induction frames with
  | nil => cases hp
  | cons q rest ih =>
    rw [List.pairwise_cons] at hs
    rcases List.mem_cons.mp hp with h | h
    · subst h
      rw [List.takeWhile_cons, if_pos (by simpa using hpe)]
      exact List.mem_cons_self _ _
    · have hq : frameTimeQ tb q ≤ endS := le_trans (hs.1 p h) hpe
      rw [List.takeWhile_cons, if_pos (by simpa using hq)]
      exact List.mem_cons_of_mem _ (ih hs.2 h)

theorem transcodePipeline_ok_shape (env : TranscodeEnv)
    (req : SegmentRequest) (c : ℤ) (enc : EncoderKind) (b : ℤ)
    (w : List FrameOut) (acts : List Action)
    (h : transcodePipeline env req c = (.ok enc b w, acts)) :
    acts = [.openInput, .openDecoder, .openEncoder, .openOutput,
      .flushEncoder] ∧
    w = transcodeLoop req.startS req.endS env.videoTB (avInvQ env.framerate)
      (videoStartPts req.startS env.videoTB) env.frames := by
  unfold transcodePipeline at h
  split at h
  · exact TranscodeResult.noConfusion (congrArg Prod.fst h)
  split at h
  · exact TranscodeResult.noConfusion (congrArg Prod.fst h)
  split at h
  · exact TranscodeResult.noConfusion (congrArg Prod.fst h)
  split at h
  · exact TranscodeResult.noConfusion (congrArg Prod.fst h)
  split at h
  · exact TranscodeResult.noConfusion (congrArg Prod.fst h)
  split at h
  · exact TranscodeResult.noConfusion (congrArg Prod.fst h)
  split at h
  · exact TranscodeResult.noConfusion (congrArg Prod.fst h)
  split at h
  · exact TranscodeResult.noConfusion (congrArg Prod.fst h)
  split at h
  · exact TranscodeResult.noConfusion (congrArg Prod.fst h)
  split at h
  · exact TranscodeResult.noConfusion (congrArg Prod.fst h)
  split at h
  · exact TranscodeResult.noConfusion (congrArg Prod.fst h)
  simp only [Prod.mk.injEq, TranscodeResult.ok.injEq] at h
  exact ⟨h.2.symm, h.1.2.2.symm⟩

theorem transcodeSegment_ok_shape (env : TranscodeEnv)
    (req : SegmentRequest) (enc : EncoderKind) (b : ℤ) (w : List FrameOut)
    (acts : List Action)
    (h : transcodeSegment env req = (.ok enc b w, acts)) :
    Action.flushEncoder ∈ acts ∧
    w = transcodeLoop req.startS req.endS env.videoTB (avInvQ env.framerate)
      (videoStartPts req.startS env.videoTB) env.frames := by
  unfold transcodeSegment at h
  split at h
  · exact TranscodeResult.noConfusion (congrArg Prod.fst h)
  split at h
  · exact TranscodeResult.noConfusion (congrArg Prod.fst h)
  split at h
  · exact TranscodeResult.noConfusion (congrArg Prod.fst h)
  split at h
  · exact TranscodeResult.noConfusion (congrArg Prod.fst h)
  have hshape := transcodePipeline_ok_shape _ _ _ _ _ _ _ h
  refine ⟨?_, hshape.2⟩
  rw [hshape.1]
  simp

/-- C4: in the demux/decode loop, every decoded frame with presentation
time strictly before `start` is discarded, the first frame strictly past
`end` stops the loop (nothing at or after it is written), and — for a
presentation-sorted stream with `start ≤ end` — frames exactly at `start`
or `end` are written; moreover every successful run writes exactly the
loop's frames and flushes the encoder after the loop. -/
theorem range_filter_and_stop (startS endS : ℚ) (tb encTB : AVRat)
    (startPts : ℤ) (frames : List ℤ)
    (hs : frames.Pairwise (fun a b => frameTimeQ tb a ≤ frameTimeQ tb b))
    (hse : startS ≤ endS) :
    ((transcodeLoop startS endS tb encTB startPts frames).map
        FrameOut.srcPts =
      (frames.takeWhile fun p => decide (frameTimeQ tb p ≤ endS)).filter
        fun p => decide (startS ≤ frameTimeQ tb p)) ∧
    (∀ p : ℤ, frameTimeQ tb p < startS →
      p ∉ (transcodeLoop startS endS tb encTB startPts frames).map
        FrameOut.srcPts) ∧
    (∀ p : ℤ, endS < frameTimeQ tb p →
      p ∉ (transcodeLoop startS endS tb encTB startPts frames).map
        FrameOut.srcPts) ∧
    (∀ p ∈ frames, (frameTimeQ tb p = startS ∨ frameTimeQ tb p = endS) →
      p ∈ (transcodeLoop startS endS tb encTB startPts frames).map
        FrameOut.srcPts) ∧
    (∀ (env : TranscodeEnv) (req : SegmentRequest) (enc : EncoderKind)
      (b : ℤ) (w : List FrameOut) (acts : List Action),
      transcodeSegment env req = (.ok enc b w, acts) →
      Action.flushEncoder ∈ acts ∧
      w = transcodeLoop req.startS req.endS env.videoTB
        (avInvQ env.framerate) (videoStartPts req.startS env.videoTB)
        env.frames) := by
  refine ⟨transcodeLoop_srcPts startS endS tb encTB startPts frames, ?_, ?_,
    ?_, fun env req enc b w acts h =>
      transcodeSegment_ok_shape env req enc b w acts h⟩
  · intro p hlt hmem
    rw [transcodeLoop_srcPts] at hmem
    have := (List.mem_filter.mp hmem).2
    simp at this
    exact absurd this (not_le.mpr hlt)
  · intro p hgt hmem
    rw [transcodeLoop_srcPts] at hmem
    have := List.mem_takeWhile_imp (List.mem_filter.mp hmem).1
    simp at this
    exact absurd this (not_le.mpr hgt)
  · intro p hp hb
    rw [transcodeLoop_srcPts]
    have hple : frameTimeQ tb p ≤ endS := by
      rcases hb with h | h
      · rw [h]; exact hse
      · rw [h]
    have hsle : startS ≤ frameTimeQ tb p := by
      rcases hb with h | h
      · rw [h]
      · rw [h]; exact hse
    exact List.mem_filter.mpr
      ⟨mem_takeWhile_of_sorted hs hp hple, by simpa using hsle⟩

/-- C4 (witness): with unit time bases, frames at times `[0, 1, 2, 3]` and
the range `[1, 2]`, exactly the frames at `1` and `2` are written. -/
theorem range_filter_and_stop_witness :
    (transcodeLoop 1 2 ⟨1, 1⟩ ⟨1, 1⟩ 0 [0, 1, 2, 3]).map FrameOut.srcPts =
      [1, 2] := by
  rw [(range_filter_and_stop 1 2 ⟨1, 1⟩ ⟨1, 1⟩ 0 [0, 1, 2, 3]
    (by norm_num [List.pairwise_cons, frameTimeQ, AVRat.toQ])
    (by norm_num)).1]
  norm_num [List.takeWhile_cons, List.filter_cons, frameTimeQ, AVRat.toQ]

theorem rebasePts_eq_max (tb encTB : AVRat) (sp p : ℤ) :
    rebasePts tb encTB sp p = avRescaleQ (max 0 (p - sp)) tb encTB := by
  show avRescaleQ (if p - sp < 0 then 0 else p - sp) tb encTB =
    avRescaleQ (max 0 (p - sp)) tb encTB
  congr 1
  omega

theorem transcodeLoop_outPts (startS endS : ℚ) (tb encTB : AVRat)
    (sp : ℤ) (frames : List ℤ) :
    ∀ fo ∈ transcodeLoop startS endS tb encTB sp frames,
      fo.outPts = avRescaleQ (max 0 (fo.srcPts - sp)) tb encTB := by
  induction frames with
  | nil => intro fo h; cases h
  | cons p rest ih =>
    intro fo hfo
    simp only [transcodeLoop] at hfo
    by_cases h1 : endS < frameTimeQ tb p
    · rw [if_pos h1] at hfo
      cases hfo
    · rw [if_neg h1] at hfo
      by_cases h2 : frameTimeQ tb p < startS
      · rw [if_pos h2] at hfo
        exact ih fo hfo
      · rw [if_neg h2] at hfo
        rcases List.mem_cons.mp hfo with h | h
        · subst h
          exact rebasePts_eq_max tb encTB sp p
        · exact ih fo h

theorem transcodeLoop_srcPts_pairwise (startS endS : ℚ) (tb encTB : AVRat)
    (sp : ℤ) (frames : List ℤ) (hs : frames.Pairwise (· ≤ ·)) :
    (transcodeLoop startS endS tb encTB sp frames).Pairwise
      (fun a b => a.srcPts ≤ b.srcPts) := by
  have hsub : ((transcodeLoop startS endS tb encTB sp frames).map
      FrameOut.srcPts).Sublist frames := by
    rw [transcodeLoop_srcPts]
    exact (List.filter_sublist _).trans (List.takeWhile_sublist _)
  exact List.pairwise_map.mp (List.Pairwise.sublist hsub hs)

/-- C5: every frame written by the loop carries
`av_rescale_q(max(0, srcPts − video_start_pts), streamTB, encoderTB)` —
the start offset in the stream's time base subtracted, negatives clamped
to zero, then rescaled into the encoder's time base — and for a
pts-sorted stream the first written frame's clamped rebased value is
non-negative and minimal among all written frames. -/
theorem rebase_clamp_and_first_min (startS endS : ℚ) (tb encTB : AVRat)
    (frames : List ℤ) (hs : frames.Pairwise (· ≤ ·)) :
    (∀ fo ∈ transcodeLoop startS endS tb encTB
        (videoStartPts startS tb) frames,
      fo.outPts = avRescaleQ (max 0 (fo.srcPts - videoStartPts startS tb))
        tb encTB) ∧
    (∀ (fo₀ : FrameOut) (rest : List FrameOut),
      transcodeLoop startS endS tb encTB (videoStartPts startS tb) frames =
        fo₀ :: rest →
      0 ≤ max 0 (fo₀.srcPts - videoStartPts startS tb) ∧
      ∀ fo ∈ rest,
        max 0 (fo₀.srcPts - videoStartPts startS tb) ≤
          max 0 (fo.srcPts - videoStartPts startS tb)) := by
  constructor
  · exact transcodeLoop_outPts startS endS tb encTB _ frames
  · intro fo₀ rest heq
    refine ⟨le_max_left _ _, ?_⟩
    intro fo hfo
    have hpair := transcodeLoop_srcPts_pairwise startS endS tb encTB
      (videoStartPts startS tb) frames hs
    rw [heq, List.pairwise_cons] at hpair
    exact max_le_max le_rfl (by
      have := hpair.1 fo hfo
      omega)

theorem videoStartPts_demo : videoStartPts 1 ⟨1, 1⟩ = 1 := by
  unfold videoStartPts
  rw [show llroundQ ((1 : ℚ) * 1000000) = 1000000 from by
    unfold llroundQ
    rw [if_pos (by norm_num)]
    norm_num]
  decide

theorem transcodeLoop_demo :
    transcodeLoop 1 2 ⟨1, 1⟩ ⟨1, 1⟩ (videoStartPts 1 ⟨1, 1⟩) [0, 1, 2, 3] =
      [⟨1, 0⟩, ⟨2, 1⟩] := by
  rw [videoStartPts_demo]
  norm_num [transcodeLoop, frameTimeQ, AVRat.toQ, rebasePts, avRescaleQ,
    avRescaleRnd, show Int.tdiv 1 2 = 0 from rfl]

/-- C5 (witness): in the concrete run of `transcodeLoop_demo` the first
written frame's clamped rebased value is non-negative (here exactly 0) and
minimal among the written frames. -/
theorem rebase_clamp_and_first_min_witness :
    0 ≤ max 0 ((1 : ℤ) - videoStartPts 1 ⟨1, 1⟩) ∧
    max 0 ((1 : ℤ) - videoStartPts 1 ⟨1, 1⟩) ≤
      max 0 ((2 : ℤ) - videoStartPts 1 ⟨1, 1⟩) := by
  have h := (rebase_clamp_and_first_min 1 2 ⟨1, 1⟩ ⟨1, 1⟩ [0, 1, 2, 3]
    (by decide)).2 ⟨1, 0⟩ [⟨2, 1⟩] transcodeLoop_demo
  exact ⟨h.1, h.2 ⟨2, 1⟩ (List.mem_singleton.mpr rfl)⟩

/-!
## Claims on the playback/seek engine
-/

theorem frameIntervalMs_pos (fps : ℚ) : 1 ≤ frameIntervalMs fps := by
  unfold frameIntervalMs
  rw [truncQ_of_nonneg (le_trans zero_le_one (le_max_left 1 (1000 / fps)))]
  exact Int.le_floor.mpr (by exact_mod_cast le_max_left 1 (1000 / fps))

theorem frameIntervalMs_25 : frameIntervalMs 25 = 40 := by
  unfold frameIntervalMs
  rw [show max (1 : ℚ) (1000 / 25) = 40 from by norm_num [max_def]]
  exact truncQ_eq (by norm_num) (by norm_num)

theorem fwdScan_eq_find (target : ℤ) (l : List ℤ) :
    fwdScan target l =
      (l.find? fun m => decide (target ≤ m)).map fun m => (m, m) := by
  induction l with
  | nil => rfl
  | cons m rest ih =>
    by_cases h : target ≤ m
    · simp [fwdScan, List.find?_cons, h]
    · simp [fwdScan, List.find?_cons, h, ih]

theorem backScanAux_fst (target : ℤ) (l : List ℤ)
    (hs : l.Pairwise (· ≤ ·)) (best : Option ℤ) :
    (backScanAux target best l).map Prod.fst =
      (l.find? fun m => decide (target ≤ m)).map fun x =>
        (((l.filter fun m => decide (m < target)).getLast?).or best).getD
          x := by
  induction l generalizing best with
  | nil => rfl
  | cons m rest ih =>
    rw [List.pairwise_cons] at hs
    by_cases h : m < target
    · have hn : ¬(target ≤ m) := not_le.mpr h
      have hLHS : backScanAux target best (m :: rest) =
          backScanAux target (some m) rest := by
        simp [backScanAux, h]
      have hfind : ((m :: rest).find? fun x => decide (target ≤ x)) =
          rest.find? fun x => decide (target ≤ x) := by
        simp [List.find?_cons, hn]
      have hfil : ((m :: rest).filter fun x => decide (x < target)) =
          m :: (rest.filter fun x => decide (x < target)) := by
        simp [List.filter_cons, h]
      rw [hLHS, ih hs.2 (some m), hfind, hfil]
      apply Option.map_congr
      intro x _
      cases hfl : rest.filter fun x => decide (x < target) with
      | nil => rfl
      | cons b bs =>
        rw [List.getLast?_cons_cons]
        cases hgl : (b :: bs).getLast? with
        | none => simp at hgl
        | some v => rfl
    · have ht : target ≤ m := not_lt.mp h
      have hfst : (backScanAux target best (m :: rest)).map Prod.fst =
          some (best.getD m) := by
        cases best <;> simp [backScanAux, h]
      have hfind : ((m :: rest).find? fun x => decide (target ≤ x)) =
          some m := by
        simp [List.find?_cons, ht]
      have hfil : ((m :: rest).filter fun x => decide (x < target)) = [] := by
        rw [List.filter_eq_nil_iff]
        intro a ha
        rcases List.mem_cons.mp ha with h' | h'
        · subst h'; simpa using h
        · have hma : m ≤ a := hs.1 a h'
          simp only [decide_eq_true_eq]
          omega
      rw [hfst, hfind, hfil]
      rfl

theorem playbackIter_backward (env : IterEnv) (st : PlayerState)
    (hex : st.shouldExit = false) (hreq : st.seekRequested = true)
    (hsingle : st.decodeSingleFrame = true) (hplay : st.isPlaying = false)
    (hdir : st.stepDir = -1) (hs : env.singleFrames.Pairwise (· ≤ ·)) :
    ((playbackIter env st).1.publishedMs =
      match env.singleFrames.find? fun m => decide (st.seekTargetMs ≤ m) with
      | none => st.publishedMs
      | some x => some (((env.singleFrames.filter fun m =>
          decide (m < st.seekTargetMs)).getLast?).getD x)) ∧
    (playbackIter env st).2 = .continued := by
  have hscan0 : singleFrameScan st.stepDir st.seekTargetMs env.singleFrames =
      backScanAux st.seekTargetMs none env.singleFrames := by
    unfold singleFrameScan
    rw [hdir, if_neg (by decide)]
  have hchar := backScanAux_fst st.seekTargetMs env.singleFrames hs none
  constructor
  · cases hba : backScanAux st.seekTargetMs none env.singleFrames with
    | none =>
      rw [hba] at hchar
      cases hf : env.singleFrames.find? fun m =>
          decide (st.seekTargetMs ≤ m) with
      | none =>
        simp [playbackIter, pollSeek, hex, hreq, hsingle, hplay, hscan0,
          hba, hf]
      | some x =>
        rw [hf] at hchar
        simp at hchar
    | some pr =>
      obtain ⟨ms, pos⟩ := pr
      rw [hba] at hchar
      cases hf : env.singleFrames.find? fun m =>
          decide (st.seekTargetMs ≤ m) with
      | none =>
        rw [hf] at hchar
        simp at hchar
      | some x =>
        rw [hf] at hchar
        simp only [Option.map_some', Option.or_none] at hchar
        have hval := Option.some.inj hchar
        simp [playbackIter, pollSeek, hex, hreq, hsingle, hplay, hscan0,
          hba, hf, hval]
  · cases hba : backScanAux st.seekTargetMs none env.singleFrames with
    | none =>
      simp [playbackIter, pollSeek, hex, hreq, hsingle, hplay, hscan0, hba]
    | some pr =>
      obtain ⟨ms, pos⟩ := pr
      simp [playbackIter, pollSeek, hex, hreq, hsingle, hplay, hscan0, hba]

/-- C2 (counterexample): stepping backward from position 160 ms at 25 fps
(frame interval 40 ms) over the frame stream `[0, 40, 80, 120, 160]`
publishes the frame at 40 ms — the latest frame strictly before the seek
target 80 ms — not the frame at 120 ms, which is the latest frame strictly
before the position P = 160 ms that the claim promises. -/
theorem backward_step_counterexample :
    (playbackIter ⟨[0, 40, 80, 120, 160], .eos⟩
        (stepBackwardState 160 25
          ⟨false, false, false, 0, false, 0, 160, none⟩)).1.publishedMs =
      some 40 ∧
    specLatestFrameBefore [0, 40, 80, 120, 160] 160 = some 120 ∧
    (40 : ℤ) ≠ 120 := by
  refine ⟨?_, by decide, by decide⟩
  simp only [stepBackwardState, seekMs, frameIntervalMs_25]
  decide

/-- C2 (amended): a backward step at position P with frame interval F
seeks to `T = max(0, P − 2F)` and publishes the latest decoded frame whose
timestamp is strictly before the seek target T (not before P); if no frame
earlier than T exists, it publishes the boundary frame (the first frame at
or after T) itself instead of failing. -/
theorem backward_step_target_and_publish (durMs : ℤ) (fps : ℚ)
    (st : PlayerState) (env : IterEnv)
    (hex : st.shouldExit = false) (hP0 : 0 ≤ st.currentPosMs)
    (hPd : st.currentPosMs ≤ durMs)
    (hs : env.singleFrames.Pairwise (· ≤ ·)) :
    ((stepBackwardState durMs fps st).seekTargetMs =
      max 0 (st.currentPosMs - 2 * frameIntervalMs fps)) ∧
    ((playbackIter env (stepBackwardState durMs fps st)).1.publishedMs =
      match env.singleFrames.find? fun m =>
          decide ((stepBackwardState durMs fps st).seekTargetMs ≤ m) with
      | none => st.publishedMs
      | some x => some (((env.singleFrames.filter fun m =>
          decide (m < (stepBackwardState durMs fps st).seekTargetMs)
          ).getLast?).getD x)) ∧
    (playbackIter env (stepBackwardState durMs fps st)).2 = .continued := by
  have hF : 1 ≤ frameIntervalMs fps := frameIntervalMs_pos fps
  have htgt : (stepBackwardState durMs fps st).seekTargetMs =
      max 0 (st.currentPosMs - 2 * frameIntervalMs fps) := by
    simp only [stepBackwardState, seekMs]
    omega
  have hmain := playbackIter_backward env (stepBackwardState durMs fps st)
    (by simp [stepBackwardState, seekMs, hex])
    (by simp [stepBackwardState, seekMs])
    (by simp [stepBackwardState, seekMs])
    (by simp [stepBackwardState, seekMs])
    (by simp [stepBackwardState, seekMs]) hs
  refine ⟨htgt, ?_, hmain.2⟩
  have hpub : (stepBackwardState durMs fps st).publishedMs =
      st.publishedMs := by
    simp [stepBackwardState, seekMs]
  rw [hmain.1, hpub]

/-- C2 (amended, witness): the amended behaviour at the concrete backward
step of the counterexample scenario. -/
theorem backward_step_target_and_publish_witness :
    (stepBackwardState 160 25
        ⟨false, false, false, 0, false, 0, 160, none⟩).seekTargetMs =
      max 0 (160 - 2 * frameIntervalMs 25) := by
  exact (backward_step_target_and_publish 160 25
    ⟨false, false, false, 0, false, 0, 160, none⟩ ⟨[0, 40, 80, 120, 160], .eos⟩
    rfl (by decide) (by decide) (by decide)).1

theorem playbackIter_forward (env : IterEnv) (st : PlayerState)
    (hex : st.shouldExit = false) (hreq : st.seekRequested = true)
    (hsingle : st.decodeSingleFrame = true) (hplay : st.isPlaying = false)
    (hdir : st.stepDir = 1) :
    ((playbackIter env st).1.publishedMs =
      match env.singleFrames.find? fun m => decide (st.seekTargetMs ≤ m) with
      | none => st.publishedMs
      | some x => some x) ∧
    (playbackIter env st).2 = .continued := by
  have hscan0 : singleFrameScan st.stepDir st.seekTargetMs env.singleFrames =
      fwdScan st.seekTargetMs env.singleFrames := by
    unfold singleFrameScan
    rw [hdir, if_pos (by decide)]
  have hchar := fwdScan_eq_find st.seekTargetMs env.singleFrames
  constructor
  · cases hf : env.singleFrames.find? fun m =>
        decide (st.seekTargetMs ≤ m) with
    | none =>
      rw [hf] at hchar
      simp only [Option.map_none'] at hchar
      simp [playbackIter, pollSeek, hex, hreq, hsingle, hplay, hscan0,
        hchar, hf]
    | some x =>
      rw [hf] at hchar
      simp only [Option.map_some'] at hchar
      simp [playbackIter, pollSeek, hex, hreq, hsingle, hplay, hscan0,
        hchar, hf]
  · cases hsc : fwdScan st.seekTargetMs env.singleFrames with
    | none =>
      simp [playbackIter, pollSeek, hex, hreq, hsingle, hplay, hscan0, hsc]
    | some pr =>
      obtain ⟨ms, pos⟩ := pr
      simp [playbackIter, pollSeek, hex, hreq, hsingle, hplay, hscan0, hsc]

/-- C7 (counterexample): a forward step issued at position 10000 ms of a
10000 ms stream at 25 fps (frame interval 40 ms) clamps the pending target
to 10000 ms instead of the claimed P + F = 10040 ms, and publishes the
frame at 10000 ms even though no decoded frame lies at or after 10040. -/
theorem forward_step_counterexample :
    (stepForwardState 10000 25
        ⟨false, false, false, 0, false, 0, 10000, none⟩).seekTargetMs =
      10000 ∧
    frameIntervalMs 25 = 40 ∧ (10000 : ℤ) ≠ 10000 + 40 ∧
    (playbackIter ⟨[9960, 10000], .eos⟩
        (stepForwardState 10000 25
          ⟨false, false, false, 0, false, 0, 10000, none⟩)).1.publishedMs =
      some 10000 ∧
    [9960, 10000].find? (fun m => decide ((10000 + 40 : ℤ) ≤ m)) = none := by
  refine ⟨?_, frameIntervalMs_25, by decide, ?_, by decide⟩
  · simp only [stepForwardState, seekMs, frameIntervalMs_25]
    decide
  · simp only [stepForwardState, seekMs, frameIntervalMs_25]
    decide

/-- C7 (amended): a forward step at position P with frame interval F sets
the pending target to P + F clamped into `[0, durationMs]` — equal to
P + F whenever that lies in range — and publishes the first decoded frame
whose timestamp is at or after the (clamped) pending target. -/
theorem forward_step_target_and_publish (durMs : ℤ) (fps : ℚ)
    (st : PlayerState) (env : IterEnv) (hex : st.shouldExit = false) :
    ((stepForwardState durMs fps st).seekTargetMs =
      min (max (st.currentPosMs + frameIntervalMs fps) 0) durMs) ∧
    (0 ≤ st.currentPosMs + frameIntervalMs fps →
      st.currentPosMs + frameIntervalMs fps ≤ durMs →
      (stepForwardState durMs fps st).seekTargetMs =
        st.currentPosMs + frameIntervalMs fps) ∧
    ((playbackIter env (stepForwardState durMs fps st)).1.publishedMs =
      match env.singleFrames.find? fun m =>
          decide ((stepForwardState durMs fps st).seekTargetMs ≤ m) with
      | none => st.publishedMs
      | some x => some x) ∧
    (playbackIter env (stepForwardState durMs fps st)).2 = .continued := by
  have htgt : (stepForwardState durMs fps st).seekTargetMs =
      min (max (st.currentPosMs + frameIntervalMs fps) 0) durMs := by
    simp only [stepForwardState, seekMs]
    omega
  have hmain := playbackIter_forward env (stepForwardState durMs fps st)
    (by simp [stepForwardState, seekMs, hex])
    (by simp [stepForwardState, seekMs])
    (by simp [stepForwardState, seekMs])
    (by simp [stepForwardState, seekMs])
    (by simp [stepForwardState, seekMs])
  refine ⟨htgt, ?_, ?_, hmain.2⟩
  · intro hge hle
    rw [htgt]
    omega
  · have hpub : (stepForwardState durMs fps st).publishedMs =
        st.publishedMs := by
      simp [stepForwardState, seekMs]
    rw [hmain.1, hpub]

/-- C7 (amended, witness): the amended forward-step behaviour at a
concrete in-range position (P = 100 ms, F = 40 ms, duration 10000 ms). -/
theorem forward_step_target_and_publish_witness :
    (stepForwardState 10000 25
        ⟨false, false, false, 0, false, 0, 100, none⟩).seekTargetMs =
      100 + frameIntervalMs 25 := by
  exact (forward_step_target_and_publish 10000 25
    ⟨false, false, false, 0, false, 0, 100, none⟩ ⟨[], .eos⟩ rfl).2.1
    (by rw [frameIntervalMs_25]; decide) (by rw [frameIntervalMs_25]; decide)

/-- C8: a seek request overwrites any still-pending request — after two
`SeekMs` calls the pending target is the latest one — and the decode
thread's poll performs exactly one seek, to that latest (clamped) target:
the first poll performs `[ms]` and the next poll performs none. -/
theorem seek_overwrite_single_service (durMs m1 m2 : ℤ) (b1 b2 : Bool)
    (st : PlayerState) (h0 : 0 ≤ m2) (h1 : m2 ≤ durMs) :
    ((seekMs durMs m2 b2 (seekMs durMs m1 b1 st)).seekTargetMs = m2) ∧
    ((pollSeek (seekMs durMs m2 b2 (seekMs durMs m1 b1 st))).2 = [m2]) ∧
    ((pollSeek (pollSeek (seekMs durMs m2 b2
      (seekMs durMs m1 b1 st))).1).2 = []) := by
  refine ⟨?_, ?_, ?_⟩ <;> simp [seekMs, pollSeek] <;> omega

/-- C8 (witness): issuing `seek(500, exact)` twice in succession results
in exactly one seek being performed, to 500 ms. -/
theorem seek_overwrite_single_service_witness :
    (pollSeek (seekMs 10000 500 true (seekMs 10000 500 true
      ⟨false, false, false, 0, false, 0, 0, none⟩))).2 = [500] :=
  (seek_overwrite_single_service 10000 500 500 true true
    ⟨false, false, false, 0, false, 0, 0, none⟩ (by decide) (by decide)).2.1

/-- C9: when the loop is in the Playing state (no pending single-frame
work) and the packet read reports end of stream, the iteration clears the
playing flag — transitioning to Paused — and continues the loop rather
than exiting, so the playing flag is no longer set on the next
iteration. -/
theorem eos_pauses_without_exit (env : IterEnv) (st : PlayerState)
    (hex : st.shouldExit = false) (hplay : st.isPlaying = true)
    (hsingle : st.decodeSingleFrame = false) (heos : env.readNext = .eos) :
    playbackIter env st =
      ({ st with isPlaying := false, seekRequested := false },
        .continued) ∧
    ((playbackIter env st).1).isPlaying = false := by
  have hmain : playbackIter env st =
      ({ st with isPlaying := false, seekRequested := false },
        .continued) := by
    cases hsr : st.seekRequested with
    | true =>
      simp [playbackIter, pollSeek, hex, hplay, hsingle, heos, hsr]
    | false =>
      simp [playbackIter, pollSeek, hex, hplay, hsingle, heos, hsr]
  exact ⟨hmain, by rw [hmain]⟩

/-- C9 (witness): a concrete Playing-state iteration observing end of
stream pauses in place (position 777 ms preserved) and continues. -/
theorem eos_pauses_without_exit_witness :
    playbackIter ⟨[], .eos⟩ ⟨false, true, false, 0, false, 0, 777, none⟩ =
      (⟨false, false, false, 0, false, 0, 777, none⟩, .continued) :=
  (eos_pauses_without_exit ⟨[], .eos⟩
    ⟨false, true, false, 0, false, 0, 777, none⟩ rfl rfl rfl rfl).1

end Resizer
